import Mathlib

/-!
# delivery-boy: verification of spec claims against the source

This development shallowly embeds the parts of the delivery-boy TypeScript
client that the spec claims talk about:

* the share-link rendering of `FileLibraryCollectionItem.url` and the link
  parsing of `DownloadList.addByLink` (src/lib/libraries.ts, src/lib/downloads.ts),
* the download-list creation path of `addByLink` (temp/meta files),
* the chunked content hashing of `FileLibraryCollectionItem.hash`,
* the framed read of `CryptedClientConnection.read` (src/lib/client/client.ts),
* `Client.updateConfig`, `Client.toggle`, and the dispose machinery of
  `CommonEventObjectBase` (src/lib/objects.ts).

JavaScript strings are modelled as byte lists (`List Nat`, each entry `< 256`):
for the ASCII data the link format handles, a JS string and its UTF-8/Latin-1
byte sequence coincide, and `encodeURIComponent`/`decodeURIComponent` act
byte-wise exactly as modelled here (non-ASCII characters are percent-encoded
byte by byte after UTF-8 conversion, so the byte-level round trip mirrors the
string-level one).
-/

/-! ## Byte-string basics -/

/-- The bytes of an ASCII Lean string literal (char code = byte for ASCII). -/
def strBytes (s : String) : List Nat :=
  s.data.map Char.toNat

/-- JS `\s` on the ASCII range: tab, LF, VT, FF, CR, space. -/
def isWsByte (b : Nat) : Bool :=
  b == 9 || b == 10 || b == 11 || b == 12 || b == 13 || b == 32

/-- JS `String.prototype.trim` on a byte string. -/
def trimBytes (s : List Nat) : List Nat :=
  ((s.dropWhile isWsByte).reverse.dropWhile isWsByte).reverse

/-- JS `String.prototype.toLowerCase` on one ASCII byte. -/
def toLowerByte (b : Nat) : Nat :=
  if 65 ≤ b ∧ b ≤ 90 then b + 32 else b

/-- Decimal digit byte (`[0-9]`). -/
def isDigitByte (b : Nat) : Bool :=
  48 ≤ b && b ≤ 57

/-- Lowercase hex digit byte (`[0-9a-f]`). -/
def isLowerHexByte (b : Nat) : Bool :=
  isDigitByte b || (97 ≤ b && b ≤ 102)

/-- Hex digit byte under the regex `i` flag (`[0-9a-fA-F]`). -/
def isHexByteCI (b : Nat) : Bool :=
  isLowerHexByte b || (65 ≤ b && b ≤ 70)

/-- Structural worker for `decimalDigits` (fuel bounds the digit count so the
definition evaluates by plain reduction; `fuel > n` always suffices). -/
def decimalDigitsGo : Nat → Nat → List Nat
  | 0, _ => []
  | fuel + 1, n =>
      if n < 10 then [48 + n] else decimalDigitsGo fuel (n / 10) ++ [48 + n % 10]

/-- The decimal rendering `` `${n}` `` of a non-negative integer, as digit bytes. -/
def decimalDigits (n : Nat) : List Nat :=
  decimalDigitsGo (n + 1) n

/-- JS `parseInt` on a trimmed all-digit byte string (Horner fold). -/
def parseDecimal (s : List Nat) : Nat :=
  s.foldl (fun acc b => acc * 10 + (b - 48)) 0

theorem decimalDigitsGo_congr :
    ∀ fuel fuel' n, n < fuel → n < fuel' →
      decimalDigitsGo fuel n = decimalDigitsGo fuel' n := by
  intro fuel
  induction fuel with
  | zero => intro fuel' n h; omega
  | succ f ih =>
      intro fuel' n h h'
      rcases fuel' with _ | f'
      · omega
      · show decimalDigitsGo (f + 1) n = decimalDigitsGo (f' + 1) n
        unfold decimalDigitsGo
        split
        · rfl
        · rw [ih f' (n / 10) (by omega) (by omega)]

theorem decimalDigitsGo_ne_nil (fuel n : Nat) (h : n < fuel) :
    decimalDigitsGo fuel n ≠ [] := by
  rcases fuel with _ | f
  · omega
  · unfold decimalDigitsGo
    split
    · simp
    · simp

theorem decimalDigits_ne_nil (n : Nat) : decimalDigits n ≠ [] :=
  decimalDigitsGo_ne_nil (n + 1) n (by omega)

theorem decimalDigitsGo_digits :
    ∀ fuel n, n < fuel → ∀ b ∈ decimalDigitsGo fuel n, isDigitByte b = true := by
  intro fuel
  induction fuel with
  | zero => intro n h; omega
  | succ f ih =>
      intro n h b hb
      unfold decimalDigitsGo at hb
      split at hb
      · simp only [List.mem_singleton] at hb
        subst hb
        simp only [isDigitByte, Bool.and_eq_true, decide_eq_true_eq]
        omega
      · rw [List.mem_append] at hb
        rcases hb with hb | hb
        · exact ih (n / 10) (by omega) b hb
        · simp only [List.mem_singleton] at hb
          subst hb
          simp only [isDigitByte, Bool.and_eq_true, decide_eq_true_eq]
          have := Nat.mod_lt n (show 0 < 10 by omega)
          omega

theorem decimalDigits_digits (n : Nat) :
    ∀ b ∈ decimalDigits n, isDigitByte b = true :=
  decimalDigitsGo_digits (n + 1) n (by omega)

theorem parseDecimal_foldl_decimalDigitsGo :
    ∀ fuel n, n < fuel → ∀ acc : Nat,
      (decimalDigitsGo fuel n).foldl (fun acc b => acc * 10 + (b - 48)) acc =
        acc * 10 ^ (decimalDigitsGo fuel n).length + n := by
  intro fuel
  induction fuel with
  | zero => intro n h; omega
  | succ f ih =>
      intro n h acc
      unfold decimalDigitsGo
      split
      · simp only [List.foldl_cons, List.foldl_nil, List.length_singleton]
        omega
      · rw [List.foldl_append, ih (n / 10) (by omega) acc]
        simp only [List.foldl_cons, List.foldl_nil, List.length_append,
          List.length_singleton, pow_succ, ← mul_assoc]
        generalize acc * 10 ^ (decimalDigitsGo f (n / 10)).length = B
        omega

theorem parseDecimal_decimalDigits (n : Nat) :
    parseDecimal (decimalDigits n) = n := by
  unfold parseDecimal decimalDigits
  rw [parseDecimal_foldl_decimalDigitsGo (n + 1) n (by omega) 0]
  omega

/-! ## `encodeURIComponent` / `decodeURIComponent`, byte level

`encodeURIComponent` keeps the unreserved characters
`A-Z a-z 0-9 - _ . ! ~ * ' ( )` and replaces every other byte of the UTF-8
form by `%HH` (uppercase hex).  `decodeURIComponent` turns every `%HH` back
into the byte `HH` and fails (JS: throws `URIError`) on a malformed escape.
(The UTF-8 validity check JS performs after collecting the bytes can only
fail on strings `encodeURIComponent` never produces, so it is not modelled.) -/

/-- The unreserved set of `encodeURIComponent`. -/
def isUnreservedByte (b : Nat) : Bool :=
  (65 ≤ b && b ≤ 90) || (97 ≤ b && b ≤ 122) || (48 ≤ b && b ≤ 57) ||
  b == 45 || b == 95 || b == 46 || b == 33 || b == 126 || b == 42 ||
  b == 39 || b == 40 || b == 41

/-- Uppercase hex digit byte for a nibble. -/
def hexDigitByte (n : Nat) : Nat :=
  if n < 10 then 48 + n else 55 + n

/-- How `encodeURIComponent` renders one byte. -/
def encodeByte (b : Nat) : List Nat :=
  if isUnreservedByte b then [b] else [37, hexDigitByte (b / 16), hexDigitByte (b % 16)]

/-- Byte-level `encodeURIComponent`. -/
def encodeURIComponentBytes (s : List Nat) : List Nat :=
  (s.map encodeByte).flatten

/-- Value of a hex digit byte (both cases), `none` if not hex. -/
def hexVal (b : Nat) : Option Nat :=
  if 48 ≤ b ∧ b ≤ 57 then some (b - 48)
  else if 65 ≤ b ∧ b ≤ 70 then some (b - 55)
  else if 97 ≤ b ∧ b ≤ 102 then some (b - 87)
  else none

/-- Byte-level `decodeURIComponent`; `none` models the thrown `URIError`. -/
def decodeURIComponentBytes : List Nat → Option (List Nat)
  | [] => some []
  | b :: rest =>
      if b = 37 then
        match rest with
        | h :: l :: rest2 =>
            match hexVal h, hexVal l with
            | some hv, some lv =>
                (decodeURIComponentBytes rest2).map (fun r => (hv * 16 + lv) :: r)
            | _, _ => none
        | _ => none
      else
        (decodeURIComponentBytes rest).map (fun r => b :: r)

theorem hexVal_hexDigitByte (n : Nat) (h : n < 16) :
    hexVal (hexDigitByte n) = some n := by
  unfold hexVal hexDigitByte
  split_ifs <;> first
    | (simp only [Option.some.injEq]; omega)
    | (exfalso; omega)

theorem isUnreservedByte_ne_37 (b : Nat) (h : isUnreservedByte b = true) : b ≠ 37 := by
  simp only [isUnreservedByte, Bool.or_eq_true, Bool.and_eq_true,
    decide_eq_true_eq, beq_iff_eq] at h
  omega

theorem decode_encodeByte (b : Nat) (hb : b < 256) (s : List Nat) :
    decodeURIComponentBytes (encodeByte b ++ s) =
      (decodeURIComponentBytes s).map (fun r => b :: r) := by
  unfold encodeByte
  split
  · rename_i hunres
    have h37 : b ≠ 37 := isUnreservedByte_ne_37 b hunres
    rw [List.singleton_append, decodeURIComponentBytes.eq_def]
    dsimp only
    rw [if_neg h37]
  · rw [List.cons_append, List.cons_append, List.cons_append, List.nil_append,
      decodeURIComponentBytes.eq_def]
    dsimp only
    rw [if_pos rfl, hexVal_hexDigitByte (b / 16) (by omega),
        hexVal_hexDigitByte (b % 16) (by omega)]
    have hrec : b / 16 * 16 + b % 16 = b := by omega
    simp only [hrec]

theorem decode_encode (s : List Nat) (h : ∀ b ∈ s, b < 256) :
    decodeURIComponentBytes (encodeURIComponentBytes s) = some s := by
  induction s with
  | nil => rfl
  | cons b bs ih =>
      have hb : b < 256 := h b (by simp)
      have hbs : ∀ x ∈ bs, x < 256 := fun x hx => h x (by simp [hx])
      simp only [encodeURIComponentBytes, List.map_cons, List.flatten_cons]
      rw [decode_encodeByte b hb]
      rw [show (bs.map encodeByte).flatten = encodeURIComponentBytes bs from rfl]
      rw [ih hbs]
      rfl

/-- Every byte `encodeURIComponent` emits is neither a pipe nor whitespace. -/
theorem encodeByte_no_pipe_no_ws (b : Nat) (hb : b < 256) :
    ∀ x ∈ encodeByte b, x ≠ 124 ∧ isWsByte x = false := by
  intro x hx
  have wsFalse : ∀ y : Nat, y ≠ 9 → y ≠ 10 → y ≠ 11 → y ≠ 12 → y ≠ 13 → y ≠ 32 →
      isWsByte y = false := by
    intro y h1 h2 h3 h4 h5 h6
    rw [← Bool.not_eq_true]
    simp only [isWsByte, Bool.or_eq_true, beq_iff_eq]
    omega
  unfold encodeByte at hx
  split at hx
  · rename_i hunres
    simp only [List.mem_singleton] at hx
    subst hx
    simp only [isUnreservedByte, Bool.or_eq_true, Bool.and_eq_true,
      decide_eq_true_eq, beq_iff_eq] at hunres
    exact ⟨by omega, wsFalse x (by omega) (by omega) (by omega) (by omega) (by omega) (by omega)⟩
  · have hexRange : ∀ n : Nat, n < 16 → 48 ≤ hexDigitByte n ∧ hexDigitByte n ≤ 70 := by
      intro n hn
      unfold hexDigitByte
      split <;> omega
    simp only [List.mem_cons, List.mem_singleton, List.not_mem_nil, or_false] at hx
    have hhi := hexRange (b / 16) (by omega)
    have hlo := hexRange (b % 16) (by omega)
    rcases hx with hx | hx | hx <;> subst hx <;>
      exact ⟨by omega, wsFalse _ (by omega) (by omega) (by omega) (by omega) (by omega) (by omega)⟩

theorem encode_ne_nil (s : List Nat) (h : s ≠ []) :
    encodeURIComponentBytes s ≠ [] := by
  rcases s with _ | ⟨b, bs⟩
  · exact absurd rfl h
  · simp only [encodeURIComponentBytes, List.map_cons, List.flatten_cons, ne_eq,
      List.append_eq_nil]
    intro hcon
    have := hcon.1
    unfold encodeByte at this
    split at this <;> simp_all

/-! ## The share-link format

`FileLibraryCollectionItem.url` (src/lib/libraries.ts:421-433) renders
`` `dboy://|file|${encodeURIComponent(basename)}|${size}|${hash}|/` ``;
`DownloadList.addByLink` (src/lib/downloads.ts:63-90) recognizes links with
the regex

`^(dboy:\/\/)(\s*)(\|)(\s*)(file)(\s*)(\|)([^\|]+)(\|)(\s*)([0-9]+)(\s*)(\|)(\s*)([0-9a-f]{64})(\s*)(\|)(\s*)(\/?)$` (flag `i`)

and then extracts: file name = `decodeURIComponent(match[8].trim())` with
default `file.dat` when empty, size = `parseInt(match[11].trim())`,
hash = `match[15].toLowerCase().trim()`.  Every quantified piece of the regex
is followed by a character its class excludes, so the backtracking regex is
equivalent to the deterministic maximal-munch scan written here. -/

/-- The bytes of `"dboy://"`. -/
def dboyLit : List Nat := [100, 98, 111, 121, 58, 47, 47]

/-- The bytes of `"file"`. -/
def fileLit : List Nat := [102, 105, 108, 101]

/-- The bytes of `"file.dat"`. -/
def fileDatLit : List Nat := [102, 105, 108, 101, 46, 100, 97, 116]

/-- One maximal `\s*` run. -/
def dropWs (s : List Nat) : List Nat := s.dropWhile isWsByte

/-- Match one literal byte. -/
def expectByte (b : Nat) : List Nat → Option (List Nat)
  | [] => none
  | x :: rest => if x = b then some rest else none

/-- Match a literal case-insensitively (the regex `i` flag). -/
def expectLitCI : List Nat → List Nat → Option (List Nat)
  | [], s => some s
  | _ :: _, [] => none
  | l :: ls, x :: xs => if toLowerByte x = toLowerByte l then expectLitCI ls xs else none

/-- `FileLibraryCollectionItem.url`: the canonical share link. -/
def renderLink (fileName : List Nat) (size : Nat) (hash : List Nat) : List Nat :=
  dboyLit ++ [124] ++ fileLit ++ [124] ++ encodeURIComponentBytes fileName ++ [124] ++
    decimalDigits size ++ [124] ++ hash ++ [124, 47]

/-- Result of `addByLink`'s link recognition: a parsed link, the
`Invalid link format!` error, or a thrown `URIError` from
`decodeURIComponent` (reported through the outer `catch`). -/
inductive LinkParseResult where
  | ok (fileName : List Nat) (size : Nat) (hash : List Nat)
  | invalidFormat
  | uriError
deriving DecidableEq

/-- Field extraction of `addByLink` once the regex matched
(src/lib/downloads.ts:70-80). -/
def finishParse (g8 g11 g15 : List Nat) : LinkParseResult :=
  match decodeURIComponentBytes (trimBytes g8) with
  | none => LinkParseResult.uriError
  | some decoded =>
      let fileName := if decoded = [] then fileDatLit else decoded
      LinkParseResult.ok fileName (parseDecimal (trimBytes g11)) ((trimBytes g15).map toLowerByte)

/-- The link recognition and extraction of `DownloadList.addByLink`. -/
def parseLink (link : List Nat) : LinkParseResult :=
  let s0 := trimBytes link
  match expectLitCI dboyLit s0 with
  | none => LinkParseResult.invalidFormat
  | some s1 =>
  match expectByte 124 (dropWs s1) with
  | none => LinkParseResult.invalidFormat
  | some s2 =>
  match expectLitCI fileLit (dropWs s2) with
  | none => LinkParseResult.invalidFormat
  | some s3 =>
  match expectByte 124 (dropWs s3) with
  | none => LinkParseResult.invalidFormat
  | some s4 =>
  let g8 := s4.takeWhile (fun b => !(b == 124))
  if g8 = [] then LinkParseResult.invalidFormat else
  match expectByte 124 (s4.dropWhile (fun b => !(b == 124))) with
  | none => LinkParseResult.invalidFormat
  | some s5 =>
  let s6 := dropWs s5
  let g11 := s6.takeWhile isDigitByte
  if g11 = [] then LinkParseResult.invalidFormat else
  match expectByte 124 (dropWs (s6.dropWhile isDigitByte)) with
  | none => LinkParseResult.invalidFormat
  | some s7 =>
  let s8 := dropWs s7
  let g15 := s8.takeWhile isHexByteCI
  if g15.length ≠ 64 then LinkParseResult.invalidFormat else
  match expectByte 124 (dropWs (s8.dropWhile isHexByteCI)) with
  | none => LinkParseResult.invalidFormat
  | some s9 =>
  if dropWs s9 = [] ∨ dropWs s9 = [47] then finishParse g8 g11 g15
  else LinkParseResult.invalidFormat


/-! ## Supporting lemmas for the round-trip proof -/

theorem dropWhile_eq_self_of_all (p : Nat → Bool) (s : List Nat)
    (h : ∀ b ∈ s, p b = false) : s.dropWhile p = s := by
  cases s with
  | nil => rfl
  | cons a l =>
      rw [List.dropWhile_cons, if_neg]
      rw [h a (by simp)]
      simp

theorem trimBytes_eq_self (s : List Nat) (h : ∀ b ∈ s, isWsByte b = false) :
    trimBytes s = s := by
  unfold trimBytes
  rw [dropWhile_eq_self_of_all isWsByte s h,
      dropWhile_eq_self_of_all isWsByte s.reverse
        (fun b hb => h b (List.mem_reverse.mp hb)),
      List.reverse_reverse]

theorem dropWs_cons (x : Nat) (r : List Nat) (hx : isWsByte x = false) :
    dropWs (x :: r) = x :: r := by
  rw [dropWs, List.dropWhile_cons, hx]
  simp

theorem expectByte_cons_self (b : Nat) (r : List Nat) :
    expectByte b (b :: r) = some r := by
  simp [expectByte]

theorem expectLitCI_append : ∀ (l r : List Nat), expectLitCI l (l ++ r) = some r := by
  intro l
  induction l with
  | nil => intro r; rfl
  | cons x xs ih =>
      intro r
      rw [List.cons_append]
      unfold expectLitCI
      rw [if_pos rfl]
      exact ih r

theorem takeWhile_append_cons (p : Nat → Bool) (xs : List Nat) (y : Nat) (r : List Nat)
    (hxs : ∀ x ∈ xs, p x = true) (hy : p y = false) :
    (xs ++ y :: r).takeWhile p = xs ∧ (xs ++ y :: r).dropWhile p = y :: r := by
  induction xs with
  | nil =>
      constructor
      · rw [List.nil_append, List.takeWhile_cons, hy]
        simp
      · rw [List.nil_append, List.dropWhile_cons, hy]
        simp
  | cons a l ih =>
      have ha : p a = true := hxs a (by simp)
      have hl : ∀ x ∈ l, p x = true := fun x hx => hxs x (by simp [hx])
      obtain ⟨iht, ihd⟩ := ih hl
      constructor
      · rw [List.cons_append, List.takeWhile_cons, ha]
        simp only [if_true, iht]
      · rw [List.cons_append, List.dropWhile_cons, ha]
        simp only [if_true, ihd]

theorem isWsByte_false_of_digit (b : Nat) (h : isDigitByte b = true) :
    isWsByte b = false := by
  simp only [isDigitByte, Bool.and_eq_true, decide_eq_true_eq] at h
  rw [← Bool.not_eq_true]
  simp only [isWsByte, Bool.or_eq_true, beq_iff_eq]
  omega

theorem lowerHex_range (b : Nat) (h : isLowerHexByte b = true) :
    (48 ≤ b ∧ b ≤ 57) ∨ (97 ≤ b ∧ b ≤ 102) := by
  simp only [isLowerHexByte, isDigitByte, Bool.or_eq_true, Bool.and_eq_true,
    decide_eq_true_eq] at h
  omega

theorem isWsByte_false_of_lowerHex (b : Nat) (h : isLowerHexByte b = true) :
    isWsByte b = false := by
  have := lowerHex_range b h
  rw [← Bool.not_eq_true]
  simp only [isWsByte, Bool.or_eq_true, beq_iff_eq]
  omega

theorem isHexByteCI_of_lower (b : Nat) (h : isLowerHexByte b = true) :
    isHexByteCI b = true := by
  simp [isHexByteCI, h]

theorem toLowerByte_of_lowerHex (b : Nat) (h : isLowerHexByte b = true) :
    toLowerByte b = b := by
  have := lowerHex_range b h
  unfold toLowerByte
  rw [if_neg (by omega)]

theorem map_toLowerByte_of_lowerHex (s : List Nat) (h : ∀ b ∈ s, isLowerHexByte b = true) :
    s.map toLowerByte = s := by
  induction s with
  | nil => rfl
  | cons a l ih =>
      rw [List.map_cons, toLowerByte_of_lowerHex a (h a (by simp)),
          ih (fun b hb => h b (by simp [hb]))]

theorem encodeBytes_no_pipe_no_ws (name : List Nat) (h256 : ∀ b ∈ name, b < 256) :
    ∀ x ∈ encodeURIComponentBytes name, x ≠ 124 ∧ isWsByte x = false := by
  intro x hx
  simp only [encodeURIComponentBytes, List.mem_flatten, List.mem_map] at hx
  obtain ⟨piece, ⟨b, hb, rfl⟩, hxpiece⟩ := hx
  exact encodeByte_no_pipe_no_ws b (h256 b hb) x hxpiece

theorem dropWs_eq_self_of_all (s : List Nat) (h : ∀ b ∈ s, isWsByte b = false) :
    dropWs s = s := by
  rw [dropWs]
  exact dropWhile_eq_self_of_all isWsByte s h

theorem wsApp (X Y : List Nat) (hX : ∀ b ∈ X, isWsByte b = false)
    (hY : ∀ b ∈ Y, isWsByte b = false) : ∀ b ∈ X ++ Y, isWsByte b = false := by
  intro b hb
  rcases List.mem_append.mp hb with h | h
  · exact hX b h
  · exact hY b h

theorem wsCons (x : Nat) (Y : List Nat) (hx : isWsByte x = false)
    (hY : ∀ b ∈ Y, isWsByte b = false) : ∀ b ∈ x :: Y, isWsByte b = false := by
  intro b hb
  rcases List.mem_cons.mp hb with h | h
  · rw [h]; exact hx
  · exact hY b h

theorem dropWs_pipe (X : List Nat) : dropWs (124 :: X) = 124 :: X := rfl

theorem dropWs_fileLit (X : List Nat) : dropWs (fileLit ++ X) = fileLit ++ X := rfl

theorem expectByte_pipe (X : List Nat) : expectByte 124 (124 :: X) = some X := rfl

/-- C2 (amended): parsing a canonically rendered link with a nonempty file
name and a 64-byte lowercase-hex hash recovers exactly the rendered fields
(`parse_link(render_link(hash, size, name)) = (hash, size, name)`); the
empty file name is the exception the counterexample exhibits. -/
theorem parseLink_renderLink (name : List Nat) (size : Nat) (hash : List Nat)
    (hname : name ≠ []) (h256 : ∀ b ∈ name, b < 256)
    (hlen : hash.length = 64) (hhex : ∀ b ∈ hash, isLowerHexByte b = true) :
    parseLink (renderLink name size hash) = LinkParseResult.ok name size hash := by
  have hEnc := encodeBytes_no_pipe_no_ws name h256
  have hEncNe : encodeURIComponentBytes name ≠ [] := encode_ne_nil name hname
  have hDig := decimalDigits_digits size
  have hDigNe : decimalDigits size ≠ [] := decimalDigits_ne_nil size
  have hEncWs : ∀ b ∈ encodeURIComponentBytes name, isWsByte b = false :=
    fun b hb => (hEnc b hb).2
  have hDigWs : ∀ b ∈ decimalDigits size, isWsByte b = false :=
    fun b hb => isWsByte_false_of_digit b (hDig b hb)
  have hHashWs : ∀ b ∈ hash, isWsByte b = false :=
    fun b hb => isWsByte_false_of_lowerHex b (hhex b hb)
  have hPipeWs : ∀ b ∈ ([124] : List Nat), isWsByte b = false := by decide
  have hwsAll : ∀ b ∈ renderLink name size hash, isWsByte b = false := by
    unfold renderLink
    exact wsApp _ _ (wsApp _ _ (wsApp _ _ (wsApp _ _ (wsApp _ _ (wsApp _ _ (wsApp _ _
      (wsApp _ _ (wsApp _ _ (by decide) hPipeWs) (by decide)) hPipeWs) hEncWs)
      hPipeWs) hDigWs) hPipeWs) hHashWs) (by decide)
  have hshape : renderLink name size hash =
      dboyLit ++ (124 :: (fileLit ++ (124 :: (encodeURIComponentBytes name ++
        (124 :: (decimalDigits size ++ (124 :: (hash ++ [124, 47])))))))) := by
    simp [renderLink, List.append_assoc]
  obtain ⟨ht8, hd8⟩ := takeWhile_append_cons (fun b => !(b == 124))
    (encodeURIComponentBytes name) 124
    (decimalDigits size ++ (124 :: (hash ++ [124, 47])))
    (fun x hx => by have hne := (hEnc x hx).1; simp [hne]) rfl
  obtain ⟨ht11, hd11⟩ := takeWhile_append_cons isDigitByte
    (decimalDigits size) 124 (hash ++ [124, 47]) hDig rfl
  obtain ⟨ht15, hd15⟩ := takeWhile_append_cons isHexByteCI hash 124 [47]
    (fun x hx => isHexByteCI_of_lower x (hhex x hx)) rfl
  unfold parseLink
  rw [trimBytes_eq_self _ hwsAll, hshape]
  dsimp only
  rw [expectLitCI_append]
  dsimp only
  rw [dropWs_pipe, expectByte_pipe]
  dsimp only
  rw [dropWs_fileLit, expectLitCI_append]
  dsimp only
  rw [dropWs_pipe, expectByte_pipe]
  dsimp only
  rw [ht8, if_neg hEncNe, hd8, expectByte_pipe]
  dsimp only
  rw [dropWs_eq_self_of_all _ (wsApp _ _ hDigWs (wsCons 124 _ rfl
        (wsApp _ _ hHashWs (by decide)))),
      ht11, if_neg hDigNe, hd11, dropWs_pipe, expectByte_pipe]
  dsimp only
  rw [dropWs_eq_self_of_all _ (wsApp _ _ hHashWs (by decide)),
      ht15, if_neg (by simp [hlen]), hd15, dropWs_pipe, expectByte_pipe]
  dsimp only
  rw [if_pos (show dropWs [47] = ([] : List Nat) ∨ dropWs [47] = [47] from Or.inr rfl)]
  unfold finishParse
  rw [trimBytes_eq_self _ hEncWs, decode_encode name h256]
  dsimp only
  rw [if_neg hname, trimBytes_eq_self _ hDigWs, parseDecimal_decimalDigits,
      trimBytes_eq_self _ hHashWs, map_toLowerByte_of_lowerHex hash hhex]

/-! ## `DownloadList.addByLink`: the creation path (src/lib/downloads.ts:82-195)

After a successful parse the code derives `` `${hash}_${fileSize}.dbtmp` `` and
`` `${hash}_${fileSize}.dbmeta` `` inside the list directory, checks the
in-memory `_items` collection for an item with the same temp path, fills the
temp file with explicit zero bytes in blocks of `Math.min(81920, remaining)`,
and writes a meta file `{name, chunks}` with `Math.ceil(fileSize / 9728000.0)`
chunk descriptors `{index: i, completed: 0}`.

Two control-flow details are modelled faithfully:
* `_items` starts out `undefined` and is only assigned inside `items()`;
  `checkIfFileExists` reads `me._items.length`, which throws a `TypeError`
  caught by the outer `try`/`catch` when `_items` is still `undefined`.
* the duplicate loop is `for (let i = 0; me._items.length; i++)`: its
  condition is the constant collection length, so for a nonempty collection
  that matches nowhere the index overruns and `item.tempFile` throws. -/

/-- The bytes of `".dbtmp"`. -/
def dbtmpExt : List Nat := [46, 100, 98, 116, 109, 112]

/-- The bytes of `".dbmeta"`. -/
def dbmetaExt : List Nat := [46, 100, 98, 109, 101, 116, 97]

/-- `` `${hash}_${fileSize}.dbtmp` `` (byte 95 is the underscore). -/
def tempFileName (hash : List Nat) (size : Nat) : List Nat :=
  hash ++ [95] ++ decimalDigits size ++ dbtmpExt

/-- `` `${hash}_${fileSize}.dbmeta` ``. -/
def metaFileName (hash : List Nat) (size : Nat) : List Nat :=
  hash ++ [95] ++ decimalDigits size ++ dbmetaExt

/-- Structural worker for `zeroFill` (fuel ≥ remaining always suffices since
every round writes at least one byte). -/
def zeroFillGo : Nat → Nat → List Nat
  | 0, _ => []
  | fuel + 1, remaining =>
      if remaining < 1 then []
      else List.replicate (min 81920 remaining) 0 ++
        zeroFillGo fuel (remaining - min 81920 remaining)

/-- All bytes `writeNext` writes into the new temp file, in order. -/
def zeroFill (size : Nat) : List Nat := zeroFillGo size size

/-- One `{index, completed}` descriptor of the meta file. -/
structure MetaChunk where
  index : Nat
  completed : Nat
deriving DecidableEq

/-- The persisted meta object `{name, chunks}`. -/
structure MetaFile where
  name : List Nat
  chunks : List MetaChunk
deriving DecidableEq

/-- `Math.ceil(fileSize / 9728000.0)` on exact arithmetic. -/
def partCount (size : Nat) : Nat := (size + 9727999) / 9728000

/-- The chunk descriptors `createNewMetaFile` pushes. -/
def metaChunksFor (size : Nat) : List MetaChunk :=
  (List.range (partCount size)).map (fun i => MetaChunk.mk i 0)

/-- An in-memory download item (the fields `addByLink` consults). -/
structure DownloadItemModel where
  tempFile : List Nat
  metaFile : List Nat
deriving DecidableEq

/-- How a call to `addByLink` can report failure through its callback. -/
inductive AddError where
  | invalidLinkFormat
  | uriError
  | typeErrorItems
deriving DecidableEq

/-- Observable outcome of one `addByLink` call. -/
inductive AddOutcome where
  | failed (e : AddError)
  | existing (item : DownloadItemModel)
  | created (tempFile metaFile : List Nat) (data : List Nat) (meta : MetaFile)
deriving DecidableEq

/-- `DownloadList.addByLink`; `items` is the `_items` field (`none` while
`items()` has never run). -/
def addByLink (items : Option (List DownloadItemModel)) (link : List Nat) : AddOutcome :=
  match parseLink link with
  | LinkParseResult.invalidFormat => AddOutcome.failed AddError.invalidLinkFormat
  | LinkParseResult.uriError => AddOutcome.failed AddError.uriError
  | LinkParseResult.ok fileName size hash =>
      let tempFile := tempFileName hash size
      match items with
      | none => AddOutcome.failed AddError.typeErrorItems
      | some l =>
          if l = [] then
            AddOutcome.created tempFile (metaFileName hash size) (zeroFill size)
              (MetaFile.mk fileName (metaChunksFor size))
          else
            match l.find? (fun it => it.tempFile == tempFile) with
            | some it => AddOutcome.existing it
            | none => AddOutcome.failed AddError.typeErrorItems

theorem zeroFillGo_eq_replicate :
    ∀ fuel r, r ≤ fuel → zeroFillGo fuel r = List.replicate r 0 := by
  intro fuel
  induction fuel with
  | zero =>
      intro r h
      have : r = 0 := by omega
      rw [this]
      rfl
  | succ f ih =>
      intro r h
      unfold zeroFillGo
      split
      · have : r = 0 := by omega
        rw [this]
        rfl
      · rw [ih (r - min 81920 r) (by omega)]
        rw [← List.replicate_add]
        have : min 81920 r + (r - min 81920 r) = r := by omega
        rw [this]

theorem zeroFill_eq_replicate (size : Nat) : zeroFill size = List.replicate size 0 :=
  zeroFillGo_eq_replicate size size (Nat.le_refl size)

/-! ## `FileLibraryCollectionItem.hash` (src/lib/libraries.ts:302-406)

`hashNext` reads the open file into a 9,728,000-byte buffer; each round with
`bytesRead ≥ 1` allocates `chunk = Buffer.alloc(bytesRead)` (zero-filled) and
runs `buffer.copy(chunk, 0, 0, chunk.length - 1)` — copying one byte short,
so the final byte of the hashed buffer is always the fill byte 0.  The chunk
hash string is pushed and also fed to the running `hashOfChunks` digest whose
final hex value becomes the content hash.  The hash primitive (sha256 hex) is
abstracted as a function `H` from input bytes to digest-string bytes; an
incremental digest is the digest of the concatenation of everything fed in. -/

/-- The buffer the code hashes for a read of `data`: `data.length` zero bytes
with the first `data.length - 1` bytes of `data` copied over. -/
def hashedBuffer (data : List Nat) : List Nat :=
  data.take (data.length - 1) ++ List.replicate (data.length - (data.length - 1)) 0

/-- One entry of `ContentHash.chunks`: `{hash, size}`. -/
structure ChunkHash where
  hash : List Nat
  size : Nat
deriving DecidableEq

/-- The `{hash, chunks}` object built by `FileLibraryCollectionItem.hash`. -/
structure ContentHash where
  hash : List Nat
  chunks : List ChunkHash
deriving DecidableEq

/-- The chunk-hash record for one read:
`{hash: sha256(chunk).digest('hex').toLowerCase().trim(), size: chunk.length}`. -/
def chunkHashOf (H : List Nat → List Nat) (data : List Nat) : ChunkHash :=
  ChunkHash.mk (trimBytes ((H (hashedBuffer data)).map toLowerByte)) data.length

/-- Structural worker for the `hashNext` read loop; `acc` is everything fed to
the running `hashOfChunks` digest so far, `chunks` the pushed chunk records.
Fuel beyond the remaining content length always suffices (each round consumes
at least one byte). -/
def hashLoopGo (H : List Nat → List Nat) :
    Nat → List Nat → List Nat → List ChunkHash → ContentHash
  | 0, _, acc, chunks => ContentHash.mk (H acc) chunks
  | fuel + 1, content, acc, chunks =>
      if content = [] then ContentHash.mk (H acc) chunks
      else
        let data := content.take 9728000
        hashLoopGo H fuel (content.drop 9728000)
          (acc ++ (chunkHashOf H data).hash) (chunks ++ [chunkHashOf H data])

/-- The whole `hash()` computation on a file with the given bytes. -/
def computeContentHash (H : List Nat → List Nat) (content : List Nat) : ContentHash :=
  hashLoopGo H (content.length + 1) content [] []

/-- Structural worker splitting a byte list into reads of 9,728,000. -/
def fileChunksGo : Nat → List Nat → List (List Nat)
  | 0, _ => []
  | fuel + 1, content =>
      if content = [] then []
      else content.take 9728000 :: fileChunksGo fuel (content.drop 9728000)

/-- The successive reads `hashNext` performs on the file bytes. -/
def fileChunks (content : List Nat) : List (List Nat) :=
  fileChunksGo (content.length + 1) content

theorem fileChunksGo_nil (fuel : Nat) : fileChunksGo fuel [] = [] := by
  cases fuel <;> rfl

theorem fileChunksGo_congr :
    ∀ fuel fuel' (content : List Nat), content.length < fuel → content.length < fuel' →
      fileChunksGo fuel content = fileChunksGo fuel' content := by
  intro fuel
  induction fuel with
  | zero => intro fuel' content h; omega
  | succ f ih =>
      intro fuel' content h h'
      rcases fuel' with _ | f'
      · omega
      · show fileChunksGo (f + 1) content = fileChunksGo (f' + 1) content
        unfold fileChunksGo
        split
        · rfl
        · rename_i hne
          have hlen : 0 < content.length := List.length_pos.mpr hne
          have hd : (content.drop 9728000).length = content.length - 9728000 :=
            List.length_drop 9728000 content
          rw [ih f' (content.drop 9728000) (by omega) (by omega)]

theorem fileChunks_cons (content : List Nat) (h : content ≠ []) :
    fileChunks content =
      content.take 9728000 :: fileChunks (content.drop 9728000) := by
  unfold fileChunks
  conv_lhs => rw [fileChunksGo.eq_def]
  dsimp only
  rw [if_neg h]
  have hlen : 0 < content.length := List.length_pos.mpr h
  have hd : (content.drop 9728000).length = content.length - 9728000 :=
    List.length_drop 9728000 content
  rw [fileChunksGo_congr content.length ((content.drop 9728000).length + 1)
    (content.drop 9728000) (by omega) (by omega)]

theorem hashLoopGo_spec (H : List Nat → List Nat) :
    ∀ fuel content, content.length < fuel → ∀ acc chunks,
      hashLoopGo H fuel content acc chunks =
        ContentHash.mk
          (H (acc ++ ((fileChunks content).map (fun c => (chunkHashOf H c).hash)).flatten))
          (chunks ++ (fileChunks content).map (chunkHashOf H)) := by
  intro fuel
  induction fuel with
  | zero => intro content h; omega
  | succ f ih =>
      intro content h acc chunks
      unfold hashLoopGo
      split
      · rename_i hnil
        rw [hnil]
        show ContentHash.mk (H acc) chunks = _
        rw [show fileChunks ([] : List Nat) = [] from rfl]
        simp
      · rename_i hne
        have hlen : 0 < content.length := List.length_pos.mpr hne
        have hd : (content.drop 9728000).length = content.length - 9728000 :=
          List.length_drop 9728000 content
        rw [ih (content.drop 9728000) (by omega)]
        rw [fileChunks_cons content hne]
        simp [List.append_assoc]

theorem computeContentHash_chunks (H : List Nat → List Nat) (content : List Nat) :
    (computeContentHash H content).chunks = (fileChunks content).map (chunkHashOf H) := by
  unfold computeContentHash
  rw [hashLoopGo_spec H (content.length + 1) content (by omega) [] []]
  simp

theorem computeContentHash_hash (H : List Nat → List Nat) (content : List Nat) :
    (computeContentHash H content).hash =
      H (((computeContentHash H content).chunks.map ChunkHash.hash).flatten) := by
  unfold computeContentHash
  rw [hashLoopGo_spec H (content.length + 1) content (by omega) [] []]
  simp [List.map_map]
  rfl

theorem fileChunksGo_length :
    ∀ fuel (content : List Nat), content.length < fuel →
      (fileChunksGo fuel content).length = partCount content.length := by
  intro fuel
  induction fuel with
  | zero => intro content h; omega
  | succ f ih =>
      intro content h
      unfold fileChunksGo
      split
      · rename_i hnil
        rw [hnil]
        unfold partCount
        simp
      · rename_i hne
        have hlen : 0 < content.length := List.length_pos.mpr hne
        have hd : (content.drop 9728000).length = content.length - 9728000 :=
          List.length_drop 9728000 content
        rw [List.length_cons, ih (content.drop 9728000) (by omega), hd]
        unfold partCount
        omega

theorem fileChunksGo_pieces :
    ∀ fuel (content : List Nat), content.length < fuel →
      (∀ piece ∈ fileChunksGo fuel content, piece ≠ []) ∧
      (∀ piece ∈ (fileChunksGo fuel content).dropLast, piece.length = 9728000) := by
  intro fuel
  induction fuel with
  | zero => intro content h; omega
  | succ f ih =>
      intro content h
      unfold fileChunksGo
      split
      · exact ⟨fun piece hp => absurd hp (List.not_mem_nil piece),
          fun piece hp => absurd hp (by simp)⟩
      · rename_i hne
        have hlen : 0 < content.length := List.length_pos.mpr hne
        have hd : (content.drop 9728000).length = content.length - 9728000 :=
          List.length_drop 9728000 content
        obtain ⟨ihA, ihB⟩ := ih (content.drop 9728000) (by omega)
        constructor
        · intro piece hp
          rcases List.mem_cons.mp hp with hp | hp
          · rw [hp]
            intro hcon
            rw [List.take_eq_nil_iff] at hcon
            rcases hcon with hcon | hcon
            · omega
            · exact hne hcon
          · exact ihA piece hp
        · intro piece hp
          rcases hrest : fileChunksGo f (content.drop 9728000) with _ | ⟨r, t⟩
          · rw [hrest] at hp
            simp at hp
          · rw [hrest] at hp
            rw [List.dropLast_cons₂] at hp
            rcases List.mem_cons.mp hp with hp | hp
            · have hdropne : content.drop 9728000 ≠ [] := by
                intro hcon
                rw [hcon, fileChunksGo_nil] at hrest
                exact List.cons_ne_nil r t hrest.symm
              have : 9728000 < content.length := by
                have := List.length_pos.mpr hdropne
                omega
              rw [hp, List.length_take]
              omega
            · rw [← hrest] at hp
              exact ihB piece hp

theorem hashedBuffer_getLast (data : List Nat) (h : data ≠ []) :
    (hashedBuffer data).getLast? = some 0 := by
  have hlen : 0 < data.length := List.length_pos.mpr h
  have h1 : data.length - (data.length - 1) = 1 := by omega
  unfold hashedBuffer
  rw [h1, List.replicate_one, List.getLast?_concat]

theorem hashedBuffer_ne (data : List Nat) (h : data ≠ []) (b : Nat)
    (hb : data.getLast? = some b) (hbne : b ≠ 0) : hashedBuffer data ≠ data := by
  intro hcon
  have hlast := hashedBuffer_getLast data h
  rw [hcon, hb] at hlast
  exact hbne (Option.some_inj.mp hlast)

/-! ## The hash cache of `FileLibraryCollectionItem` (src/lib/libraries.ts:359-397)

`checkFileForChange` recomputes only when `_hash` is unset or when the
recorded `_lastChange`/`_size` are set and differ from the fresh `lstat`
values (`ctime`, `size`); otherwise the cached `_hash` object is returned
unchanged and `hashNext` never runs. -/

/-- The cache fields of one library item. -/
structure ItemState where
  hash : Option ContentHash
  lastChange : Option Nat
  size : Option Nat
deriving DecidableEq

/-- The `lstat` values consulted by `checkFileForChange`. -/
structure FileStats where
  ctime : Nat
  size : Nat
deriving DecidableEq

/-- One `hash()` call: result is (new cache state, value passed to the
callback, whether the chunked hashing ran). -/
def hashCall (H : List Nat → List Nat) (st : ItemState) (stats : FileStats)
    (content : List Nat) : ItemState × Option ContentHash × Bool :=
  let hashAgain :=
    match st.hash, st.lastChange, st.size with
    | some _, some t, some s => (t != stats.ctime) || (s != stats.size)
    | _, _, _ => true
  if hashAgain then
    let newHash := computeContentHash H content
    (ItemState.mk (some newHash) (some stats.ctime) (some stats.size), some newHash, true)
  else
    (st, st.hash, false)

/-! ## `CryptedClientConnection.read` (src/lib/client/client.ts:767-833)

The framed read issues `_CONN.read(4)`, decodes a little-endian length `n`,
rejects only `n > 16777215` (`MAX_MSG_LENGTH`), issues `_CONN.read(n)`,
decrypts with the aes-256-ctr decipher (modelled as the map `D`), returns
`null` ("no message") for an empty plaintext and the parsed payload
otherwise.  Every error branch closes the underlying connection before the
callback runs.

`_CONN` is a `SocketConnection` (src/lib/sockets.ts:71-90): its
`read(bytesToRead)` calls Node's `socket.read(bytesToRead)` and, on `null`,
re-arms `once('readable')` and retries.  Node's `readable.read(0)` returns
`null` unconditionally, so for `bytesToRead = 0` the retry loop re-arms
forever and the callback is never invoked; for `bytesToRead ≥ 1` the loop
waits until that many bytes are buffered, and once the stream has ended it
hands over whatever remains (possibly fewer bytes — the callers detect this
with their length checks). -/

/-- Result of one `SocketConnection.read(n)` against the stream of bytes that
arrive before end-of-stream: the delivered buffer and remaining stream, or
`never` when the callback is never invoked (`n = 0`). -/
inductive ConnReadResult where
  | bytes (buf rest : List Nat)
  | never
deriving DecidableEq

/-- `SocketConnection.read` (src/lib/sockets.ts:71-90). -/
def connRead (n : Nat) (stream : List Nat) : ConnReadResult :=
  if n = 0 then ConnReadResult.never
  else ConnReadResult.bytes (stream.take n) (stream.drop n)

/-- Observable outcome of one framed read; the two error outcomes close the
connection, while `hangs` means the read never completes at all (no error,
no result, no teardown). -/
inductive ReadResult where
  | noMessage
  | message (payload : List Nat)
  | shortRead (got expected : Nat)
  | lengthError (n : Nat)
  | hangs
deriving DecidableEq

/-- `buff.readUInt32LE(0)`. -/
def le32 (b0 b1 b2 b3 : Nat) : Nat :=
  b0 + 256 * b1 + 65536 * b2 + 16777216 * b3

/-- `CryptedClientConnection.read` over the connection's pending byte stream. -/
def cryptedRead (D : List Nat → List Nat) (stream : List Nat) : ReadResult :=
  match connRead 4 stream with
  | ConnReadResult.never => ReadResult.hangs
  | ConnReadResult.bytes buf rest =>
      match buf with
      | [b0, b1, b2, b3] =>
          let n := le32 b0 b1 b2 b3
          if n > 16777215 then ReadResult.lengthError n
          else
            match connRead n rest with
            | ConnReadResult.never => ReadResult.hangs
            | ConnReadResult.bytes body _ =>
                if body.length ≠ n then ReadResult.shortRead body.length n
                else if (D body).length < 1 then ReadResult.noMessage
                else ReadResult.message (D body)
      | _ => ReadResult.shortRead buf.length 4

/-! ## `Client.updateConfig` (src/lib/client/client.ts:620-687)

The method starts from the default object, overrides fields present (and
JS-truthy) in the input, trims and drops falsy share entries, removes
duplicates by `indexOf`-position, and pushes `./shares` when the list is
empty.  JS truthiness is modelled per type: a missing field is `none`, an
empty string / zero number is falsy. -/

/-- `cfg.folders`. -/
structure InFolders where
  temp : Option (List Nat)
  shares : Option (List (List Nat))

/-- `cfg.security.passwords`. -/
structure InPasswords where
  size : Option Nat

/-- `cfg.security.rsa`. -/
structure InRsa where
  keySize : Option Nat

/-- `cfg.security`. -/
structure InSecurity where
  passwords : Option InPasswords
  rsa : Option InRsa

/-- The user-supplied configuration object. -/
structure InConfig where
  folders : Option InFolders
  security : Option InSecurity
  port : Option Nat

/-- The computed configuration. -/
structure ClientConfigModel where
  shares : List (List Nat)
  temp : List Nat
  port : Nat
  passwordSize : Nat
  rsaKeySize : Nat
deriving DecidableEq

/-- The bytes of `"./shares"`. -/
def defaultSharesLit : List Nat := [46, 47, 115, 104, 97, 114, 101, 115]

/-- The bytes of `"./temp"`. -/
def defaultTempLit : List Nat := [46, 47, 116, 101, 109, 112]

/-- `.map(x => x ? ('' + x).trim() : '').filter(x => x ? true : false)`. -/
def trimmedShares (shares : List (List Nat)) : List (List Nat) :=
  (shares.map (fun x => if x ≠ [] then trimBytes x else [])).filter (fun x => !(x == []))

/-- `.filter((x, pos) => list.indexOf(x) == pos)` — keep an entry only at the
position of its first occurrence. -/
def jsDedup (l : List (List Nat)) : List (List Nat) :=
  (l.enum.filter (fun p => l.indexOf p.2 == p.1)).map Prod.snd

/-- The share list before deduplication, as `updateConfig` computes it. -/
def processedShares (cfg : InConfig) : List (List Nat) :=
  match cfg.folders with
  | some f =>
      match f.shares with
      | some s => trimmedShares s
      | none => []
  | none => []

/-- `Client.updateConfig`: compute the new configuration from an optional
input (`none` models calling the constructor without a configuration). -/
def updateConfig (cfg0 : Option InConfig) : ClientConfigModel :=
  let cfg := cfg0.getD (InConfig.mk none none none)
  let temp :=
    match cfg.folders with
    | some f =>
        match f.temp with
        | some t => if t ≠ [] then t else defaultTempLit
        | none => defaultTempLit
    | none => defaultTempLit
  let shares1 := jsDedup (processedShares cfg)
  let shares := if shares1 = [] then [defaultSharesLit] else shares1
  let pwdSize :=
    match cfg.security with
    | some sec =>
        match sec.passwords with
        | some p =>
            match p.size with
            | some n => if n ≠ 0 then n else 48
            | none => 48
        | none => 48
    | none => 48
  let keySize :=
    match cfg.security with
    | some sec =>
        match sec.rsa with
        | some r =>
            match r.keySize with
            | some n => if n ≠ 0 then n else 2048
            | none => 2048
        | none => 2048
    | none => 2048
  let port :=
    match cfg.port with
    | some p => if p ≠ 0 then p else 23979
    | none => 23979
  ClientConfigModel.mk shares temp port pwdSize keySize

/-! ## The client lifecycle (src/lib/client/client.ts:449-613)

`start`/`stop`/`toggle` are modelled as one observable call each.  The
`Starting`/`Stopping` branches of `start`/`stop` immediately re-invoke the
same method (a busy self-call with no state change in between), modelled by
the explicit `retry` marker; `toggle` never reaches them because it
dispatches only from `Running`/`Stopped`.  The environment carries the
outcome of the asynchronous steps (`listen`, key generation, server close). -/

/-- `CLIENT_STATE_*` numbers from src/lib/contracts.ts. -/
def CLIENT_STATE_UNKNOWN : Nat := 0

/-- `CLIENT_STATE_STARTING = 1`. -/
def CLIENT_STATE_STARTING : Nat := 1

/-- `CLIENT_STATE_RUNNING = 2`. -/
def CLIENT_STATE_RUNNING : Nat := 2

/-- `CLIENT_STATE_STOPPING = 3`. -/
def CLIENT_STATE_STOPPING : Nat := 3

/-- `CLIENT_STATE_STOPPED = 4`. -/
def CLIENT_STATE_STOPPED : Nat := 4

/-- The mutable client fields the lifecycle methods touch. -/
structure ClientModel where
  state : Nat
  hasServer : Bool
  hasKey : Bool
deriving DecidableEq

/-- Outcomes of the asynchronous steps inside `start`/`stop`. -/
structure LifecycleEnv where
  listenOk : Bool
  keyGenOk : Bool
  closeOk : Bool
deriving DecidableEq

/-- How one lifecycle call reports back. -/
inductive CallResult where
  | ok
  | retry
  | listenError
  | keyGenError
  | closeError
  | invalidState (s : Nat)
deriving DecidableEq

/-- `Client.start`. -/
def startCall (env : LifecycleEnv) (c : ClientModel) : ClientModel × CallResult :=
  if c.state = CLIENT_STATE_STARTING ∨ c.state = CLIENT_STATE_STOPPING then
    (c, CallResult.retry)
  else if c.state = CLIENT_STATE_RUNNING then
    (c, CallResult.ok)
  else if c.state = CLIENT_STATE_STOPPED then
    if env.listenOk then
      if env.keyGenOk then
        (ClientModel.mk CLIENT_STATE_RUNNING true true, CallResult.ok)
      else
        (ClientModel.mk CLIENT_STATE_STARTING c.hasServer c.hasKey, CallResult.keyGenError)
    else
      (ClientModel.mk CLIENT_STATE_STOPPED c.hasServer c.hasKey, CallResult.listenError)
  else
    (c, CallResult.invalidState c.state)

/-- `Client.stop`. -/
def stopCall (env : LifecycleEnv) (c : ClientModel) : ClientModel × CallResult :=
  if c.state = CLIENT_STATE_STARTING ∨ c.state = CLIENT_STATE_STOPPING then
    (c, CallResult.retry)
  else if c.state = CLIENT_STATE_RUNNING then
    if c.hasServer then
      if env.closeOk then
        (ClientModel.mk CLIENT_STATE_STOPPED false false, CallResult.ok)
      else
        (ClientModel.mk CLIENT_STATE_RUNNING c.hasServer c.hasKey, CallResult.closeError)
    else
      (ClientModel.mk CLIENT_STATE_STOPPING c.hasServer c.hasKey, CallResult.ok)
  else if c.state = CLIENT_STATE_STOPPED then
    (c, CallResult.ok)
  else
    (c, CallResult.invalidState c.state)

/-- `Client.toggle`. -/
def toggleCall (env : LifecycleEnv) (c : ClientModel) : ClientModel × CallResult :=
  if c.state = CLIENT_STATE_RUNNING then stopCall env c
  else if c.state = CLIENT_STATE_STOPPED then startCall env c
  else (c, CallResult.invalidState c.state)

/-! ## `CommonEventObjectBase.disposeInner` (src/lib/objects.ts:66-114, 265-324)

`disposeInner` sets `resolveInvoked = false` but `rejectInvoked = true`
before wiring the wrappers, then hands `resolveWrapper`/`rejectWrapper` to
the subclass `disposing` hook.  Both wrappers first test
`resolveInvoked || rejectInvoked` and return when it holds — so with the
initial `true`, neither wrapper can ever reach its body.  The hook's behavior
is modelled as the sequence of wrapper invocations it performs (a trailing
`callReject` also models the `catch (e) { rejectWrapper(e) }` path). -/

/-- The state `disposeInner` threads through its wrappers. -/
structure DisposeState where
  resolveInvoked : Bool
  rejectInvoked : Bool
  isDisposed : Bool
  resolveCalls : Nat
  rejectCalls : Nat
deriving DecidableEq

/-- One wrapper invocation performed by the `disposing` hook. -/
inductive WrapperCall where
  | callResolve
  | callReject
deriving DecidableEq

/-- `resolveWrapper` / `rejectWrapper`; the counters record how often the
underlying `resolve`/`reject` callbacks actually ran. -/
def applyWrapperCall (st : DisposeState) : WrapperCall → DisposeState
  | WrapperCall.callResolve =>
      if st.resolveInvoked || st.rejectInvoked then st
      else DisposeState.mk true st.rejectInvoked true (st.resolveCalls + 1) st.rejectCalls
  | WrapperCall.callReject =>
      if st.rejectInvoked || st.resolveInvoked then st
      else DisposeState.mk st.resolveInvoked true st.isDisposed st.resolveCalls (st.rejectCalls + 1)

/-- One `dispose()` call on an object with `isDisposed = wasDisposed`, whose
`disposing` hook performs the given wrapper invocations. -/
def disposeRun (wasDisposed : Bool) (body : List WrapperCall) : DisposeState :=
  if wasDisposed then DisposeState.mk false true wasDisposed 0 0
  else body.foldl applyWrapperCall (DisposeState.mk false true wasDisposed 0 0)

/-! ## Claim theorems -/

theorem foldl_applyWrapperCall_fixed :
    ∀ (body : List WrapperCall) (st : DisposeState), st.rejectInvoked = true →
      body.foldl applyWrapperCall st = st := by
  intro body
  induction body with
  | nil => intro st h; rfl
  | cons c t ih =>
      intro st h
      rw [List.foldl_cons]
      have hstep : applyWrapperCall st c = st := by
        cases c <;> (unfold applyWrapperCall; dsimp only; rw [if_pos (by rw [h]; simp)])
      rw [hstep]
      exact ih st h

/-- C8: because `disposeInner` initializes its `rejectInvoked` guard to
`true`, neither completion wrapper ever reaches its body, so no `dispose()`
call invokes the result callback (`resolve` or `reject`) and `isDisposed`
is never changed by `dispose()`. -/
theorem claim8_dispose_never_completes (wasDisposed : Bool) (body : List WrapperCall) :
    (disposeRun wasDisposed body).resolveCalls = 0 ∧
    (disposeRun wasDisposed body).rejectCalls = 0 ∧
    (disposeRun wasDisposed body).isDisposed = wasDisposed := by
  unfold disposeRun
  split
  · exact ⟨rfl, rfl, rfl⟩
  · rw [foldl_applyWrapperCall_fixed body (DisposeState.mk false true wasDisposed 0 0) rfl]
    exact ⟨rfl, rfl, rfl⟩

/-- C6: `toggle()` from `Running` behaves exactly as `stop()`, from `Stopped`
exactly as `start()`, and from every other state fails with the
`Cannot toggle client state` error, leaving the state unchanged. -/
theorem claim6_toggle (env : LifecycleEnv) (c : ClientModel) :
    (c.state = CLIENT_STATE_RUNNING → toggleCall env c = stopCall env c) ∧
    (c.state = CLIENT_STATE_STOPPED → toggleCall env c = startCall env c) ∧
    (c.state ≠ CLIENT_STATE_RUNNING → c.state ≠ CLIENT_STATE_STOPPED →
      toggleCall env c = (c, CallResult.invalidState c.state)) := by
  refine ⟨?_, ?_, ?_⟩
  · intro h
    unfold toggleCall
    rw [if_pos h]
  · intro h
    unfold toggleCall
    rw [if_neg (by rw [h]; decide), if_pos h]
  · intro h1 h2
    unfold toggleCall
    rw [if_neg h1, if_neg h2]

/-- C6 witness: from the `Running` state with a live server, `toggle` is
`stop` (and transitions to `Stopped` when the close succeeds); from
`Starting` it fails without a state change. -/
theorem claim6_toggle_witness :
    (toggleCall (LifecycleEnv.mk true true true) (ClientModel.mk 2 true true) =
      stopCall (LifecycleEnv.mk true true true) (ClientModel.mk 2 true true)) ∧
    (toggleCall (LifecycleEnv.mk true true true) (ClientModel.mk 1 false false) =
      (ClientModel.mk 1 false false, CallResult.invalidState 1)) := by
  constructor
  · exact (claim6_toggle (LifecycleEnv.mk true true true) (ClientModel.mk 2 true true)).1 rfl
  · exact (claim6_toggle (LifecycleEnv.mk true true true)
      (ClientModel.mk 1 false false)).2.2 (by decide) (by decide)

/-- C10: on a list whose `items()` was never called, `_items` is still
`undefined`; `addByLink` with a well-formed link then throws reading
`me._items.length`, the outer catch reports the error, and no file is
created. -/
theorem claim10_uninitialized_items (link : List Nat) (fileName : List Nat)
    (size : Nat) (hash : List Nat)
    (h : parseLink link = LinkParseResult.ok fileName size hash) :
    addByLink none link = AddOutcome.failed AddError.typeErrorItems ∧
    ∀ t m d meta, addByLink none link ≠ AddOutcome.created t m d meta := by
  have hmain : addByLink none link = AddOutcome.failed AddError.typeErrorItems := by
    unfold addByLink
    rw [h]
  exact ⟨hmain, fun t m d meta hcon => by rw [hmain] at hcon; exact AddOutcome.noConfusion hcon⟩

/-- C10 witness: the canonical link for a 1024-byte `report.pdf` with the
all-zero hash parses, yet `addByLink` on an uninitialized list fails. -/
theorem claim10_witness :
    addByLink none (renderLink (strBytes "report.pdf") 1024 (List.replicate 64 48)) =
      AddOutcome.failed AddError.typeErrorItems :=
  (claim10_uninitialized_items _ (strBytes "report.pdf") 1024 (List.replicate 64 48)
    (by decide)).1

/-- C3 counterexample: for the link `dboy://|a|3|<64 zero-hex>|/`-style input
(file name `a`, size 3, all-zero hash), the data file `addByLink` creates is
named `<hash>_3.dbtmp` — not `<hash>_3.tmp` as the claim states (and the
metadata file is `.dbmeta`, not `.meta`). -/
theorem claim3_counterexample :
    addByLink (some []) (renderLink [97] 3 (List.replicate 64 48)) =
      AddOutcome.created (tempFileName (List.replicate 64 48) 3)
        (metaFileName (List.replicate 64 48) 3) (zeroFill 3)
        (MetaFile.mk [97] (metaChunksFor 3)) ∧
    tempFileName (List.replicate 64 48) 3 ≠
      List.replicate 64 48 ++ [95] ++ decimalDigits 3 ++ strBytes ".tmp" ∧
    metaFileName (List.replicate 64 48) 3 ≠
      List.replicate 64 48 ++ [95] ++ decimalDigits 3 ++ strBytes ".meta" := by
  decide

/-- C3 (amended): for every link that parses, `addByLink` on a list with an
empty (initialized) item collection creates `<hash>_<size>.dbtmp` holding
exactly `size` explicitly written zero bytes and `<hash>_<size>.dbmeta`
holding the file name and `ceil(size / 9728000)` chunk descriptors with 0
completed bytes each. -/
theorem claim3_created_files (link fileName : List Nat) (size : Nat) (hash : List Nat)
    (h : parseLink link = LinkParseResult.ok fileName size hash) :
    addByLink (some []) link =
      AddOutcome.created (hash ++ [95] ++ decimalDigits size ++ dbtmpExt)
        (hash ++ [95] ++ decimalDigits size ++ dbmetaExt)
        (List.replicate size 0) (MetaFile.mk fileName (metaChunksFor size)) ∧
    (List.replicate size 0).length = size ∧
    (∀ b ∈ List.replicate size 0, b = 0) ∧
    (metaChunksFor size).length = partCount size ∧
    (∀ c ∈ metaChunksFor size, c.completed = 0) := by
  refine ⟨?_, List.length_replicate size 0, fun b hb => List.eq_of_mem_replicate hb, ?_, ?_⟩
  · unfold addByLink
    rw [h]
    dsimp only
    rw [if_pos rfl, zeroFill_eq_replicate]
    rfl
  · unfold metaChunksFor
    rw [List.length_map, List.length_range]
  · intro c hc
    unfold metaChunksFor at hc
    rw [List.mem_map] at hc
    obtain ⟨i, _, rfl⟩ := hc
    rfl

/-- C3 witness: the size-3 link from the counterexample parses and the
created artifacts have the stated shape. -/
theorem claim3_witness :
    addByLink (some []) (renderLink [97] 3 (List.replicate 64 48)) =
      AddOutcome.created (List.replicate 64 48 ++ [95] ++ decimalDigits 3 ++ dbtmpExt)
        (List.replicate 64 48 ++ [95] ++ decimalDigits 3 ++ dbmetaExt)
        (List.replicate 3 0) (MetaFile.mk [97] (metaChunksFor 3)) :=
  (claim3_created_files (renderLink [97] 3 (List.replicate 64 48)) [97] 3
    (List.replicate 64 48) (by decide)).1

theorem dropLast_map_eq {α β : Type} (f : α → β) :
    ∀ l : List α, (l.map f).dropLast = l.dropLast.map f := by
  intro l
  induction l with
  | nil => rfl
  | cons a t ih =>
      cases t with
      | nil => rfl
      | cons b t2 =>
          show (f a :: f b :: t2.map f).dropLast = _
          rw [List.dropLast_cons₂, show f b :: t2.map f = (b :: t2).map f from rfl, ih,
              List.dropLast_cons₂, List.map_cons]

/-- C4: the content hash invariants — `full_hash` is the digest of the
in-order concatenation of the per-chunk hash strings, the chunk count is
`ceil(size / 9728000)`, and every chunk but possibly the last records size
9,728,000. -/
theorem claim4_hash_invariants (H : List Nat → List Nat) (content : List Nat) :
    (computeContentHash H content).hash =
      H (((computeContentHash H content).chunks.map ChunkHash.hash).flatten) ∧
    (computeContentHash H content).chunks.length = partCount content.length ∧
    ∀ c ∈ (computeContentHash H content).chunks.dropLast, c.size = 9728000 := by
  refine ⟨computeContentHash_hash H content, ?_, ?_⟩
  · rw [computeContentHash_chunks, List.length_map]
    exact fileChunksGo_length (content.length + 1) content (by omega)
  · intro c hc
    rw [computeContentHash_chunks, dropLast_map_eq] at hc
    rw [List.mem_map] at hc
    obtain ⟨piece, hpiece, rfl⟩ := hc
    exact (fileChunksGo_pieces (content.length + 1) content (by omega)).2 piece hpiece

/-- C4 witness: a 3-byte file under the identity digest has one chunk and an
empty drop-last list, and its full hash is the digest of the concatenated
chunk hashes. -/
theorem claim4_witness :
    (computeContentHash (fun l => l) [1, 2, 3]).chunks.length = partCount 3 ∧
    ∀ c ∈ (computeContentHash (fun l => l) [1, 2, 3]).chunks.dropLast, c.size = 9728000 :=
  ⟨(claim4_hash_invariants (fun l => l) [1, 2, 3]).2.1,
   (claim4_hash_invariants (fun l => l) [1, 2, 3]).2.2⟩

/-- C9: every chunk record stores the hash of `hashedBuffer piece`, the
buffer whose final byte is forced to zero by the one-byte-short
`buffer.copy`; whenever the chunk's real last byte is nonzero, the buffer
that gets hashed differs from the chunk's actual bytes. -/
theorem claim9_truncated_chunk (H : List Nat → List Nat) (content : List Nat) :
    (computeContentHash H content).chunks = (fileChunks content).map (chunkHashOf H) ∧
    ∀ piece ∈ fileChunks content,
      (chunkHashOf H piece).hash = trimBytes ((H (hashedBuffer piece)).map toLowerByte) ∧
      (hashedBuffer piece).getLast? = some 0 ∧
      ∀ b, piece.getLast? = some b → b ≠ 0 → hashedBuffer piece ≠ piece := by
  refine ⟨computeContentHash_chunks H content, ?_⟩
  intro piece hpiece
  have hne : piece ≠ [] :=
    (fileChunksGo_pieces (content.length + 1) content (by omega)).1 piece hpiece
  exact ⟨rfl, hashedBuffer_getLast piece hne,
    fun b hb hbne => hashedBuffer_ne piece hne b hb hbne⟩

/-- C9 witness: for the 3-byte file `[1, 2, 3]` (single chunk, last byte 3),
the hashed buffer ends in 0 and differs from the chunk's actual bytes. -/
theorem claim9_witness :
    (hashedBuffer [1, 2, 3]).getLast? = some 0 ∧ hashedBuffer [1, 2, 3] ≠ [1, 2, 3] := by
  have h := (claim9_truncated_chunk (fun l => l) [1, 2, 3]).2 [1, 2, 3] (by decide)
  exact ⟨h.2.1, h.2.2 3 (by decide) (by decide)⟩

/-- C7: a second `hash()` call with unchanged `lstat` values returns the
identical cached `ContentHash` without re-running the chunked hashing, and
the recomputation runs exactly when the item was never hashed or the
recorded timestamp/size differ from the current ones. -/
theorem claim7_hash_cache (H : List Nat → List Nat) (st : ItemState)
    (stats : FileStats) (content content' : List Nat) :
    (hashCall H (hashCall H st stats content).1 stats content' =
      ((hashCall H st stats content).1, (hashCall H st stats content).2.1, false)) ∧
    ((hashCall H st stats content).2.2 = false ↔
      (∃ h, st.hash = some h) ∧ st.lastChange = some stats.ctime ∧
        st.size = some stats.size) := by
  obtain ⟨oh, ot, os⟩ := st
  rcases oh with _ | h0 <;> rcases ot with _ | t0 <;> rcases os with _ | s0
  · simp [hashCall]
  · simp [hashCall]
  · simp [hashCall]
  · simp [hashCall]
  · simp [hashCall]
  · simp [hashCall]
  · simp [hashCall]
  · by_cases hcond : t0 = stats.ctime ∧ s0 = stats.size
    · obtain ⟨hc1, hc2⟩ := hcond
      subst hc1
      subst hc2
      simp [hashCall]
    · have hb : ((t0 != stats.ctime) || (s0 != stats.size)) = true := by
        rcases not_and_or.mp hcond with h | h
        · simp only [Bool.or_eq_true, bne_iff_ne]
          exact Or.inl h
        · simp only [Bool.or_eq_true, bne_iff_ne]
          exact Or.inr h
      simp [hashCall, hb, hcond]

/-- C7 witness: two consecutive calls on a fresh item with identical stats —
the second call returns the first call's cached hash without recomputing. -/
theorem claim7_witness :
    hashCall (fun l => l)
        (hashCall (fun l => l) (ItemState.mk none none none) (FileStats.mk 0 0) []).1
        (FileStats.mk 0 0) [] =
      ((hashCall (fun l => l) (ItemState.mk none none none) (FileStats.mk 0 0) []).1,
       (hashCall (fun l => l) (ItemState.mk none none none) (FileStats.mk 0 0) []).2.1,
       false) :=
  (claim7_hash_cache (fun l => l) (ItemState.mk none none none) (FileStats.mk 0 0) [] []).1

/-- Whether a framed read reported an error (every error path closes the
underlying connection before the callback runs); a hung read reports
nothing at all, so it is not an error outcome. -/
def ReadResult.isErr : ReadResult → Bool
  | ReadResult.noMessage => false
  | ReadResult.message _ => false
  | ReadResult.shortRead _ _ => true
  | ReadResult.lengthError _ => true
  | ReadResult.hangs => false

/-- C1 counterexample: a frame whose 4-byte little-endian length prefix is 0
is not rejected by `CryptedClientConnection.read` — the guard only tests
`dataLength > MAX_MSG_LENGTH`, so the zero length passes the check, the
follow-up `_CONN.read(0)` retries `socket.read(0)` (always `null`) forever,
and the read hangs: no error is reported and the connection is not torn
down. -/
theorem claim1_counterexample :
    cryptedRead (fun b => b) [0, 0, 0, 0] = ReadResult.hangs ∧
    (cryptedRead (fun b => b) [0, 0, 0, 0]).isErr = false := by
  decide

/-- C1 (amended): a framed read fails (and closes the connection) for every
length prefix above 16,777,215; a zero length prefix passes that only guard
and then never completes — `_CONN.read(0)`is an endless `once('readable')`
retry of Node's `socket.read(0)`, which returns `null` unconditionally, so
the callback is never invoked and the connection is not torn down. -/
theorem claim1_read_length_check (D : List Nat → List Nat)
    (b0 b1 b2 b3 : Nat) (rest : List Nat) :
    (le32 b0 b1 b2 b3 > 16777215 →
      cryptedRead D (b0 :: b1 :: b2 :: b3 :: rest) =
        ReadResult.lengthError (le32 b0 b1 b2 b3)) ∧
    (le32 b0 b1 b2 b3 = 0 →
      cryptedRead D (b0 :: b1 :: b2 :: b3 :: rest) = ReadResult.hangs) := by
  have h4 : connRead 4 (b0 :: b1 :: b2 :: b3 :: rest) =
      ConnReadResult.bytes [b0, b1, b2, b3] rest := by
    unfold connRead
    rw [if_neg (by omega)]
    rfl
  constructor
  · intro h
    unfold cryptedRead
    rw [h4]
    dsimp only
    rw [if_pos h]
  · intro h
    unfold cryptedRead
    rw [h4]
    dsimp only
    rw [h, if_neg (by omega)]
    rw [show connRead 0 rest = ConnReadResult.never from by unfold connRead; rw [if_pos rfl]]

/-- C1 witness: the prefix 16,777,216 fails with the invalid-length error
while the zero prefix makes the read hang even with payload bytes pending. -/
theorem claim1_witness :
    cryptedRead (fun b => b) [0, 0, 0, 1] = ReadResult.lengthError 16777216 ∧
    cryptedRead (fun b => b) [0, 0, 0, 0, 5] = ReadResult.hangs := by
  constructor
  · exact (claim1_read_length_check (fun b => b) 0 0 0 1 []).1 (by decide)
  · exact (claim1_read_length_check (fun b => b) 0 0 0 0 [5]).2 (by decide)

theorem jsDedup_nodup (l : List (List Nat)) : (jsDedup l).Nodup := by
  unfold jsDedup
  apply List.Nodup.map_on
  · intro x hx y hy hxy
    rw [List.mem_filter] at hx hy
    have hx2 : l.indexOf x.2 = x.1 := by
      have := hx.2
      simp only [beq_iff_eq] at this
      exact this
    have hy2 : l.indexOf y.2 = y.1 := by
      have := hy.2
      simp only [beq_iff_eq] at this
      exact this
    obtain ⟨x1, x2⟩ := x
    obtain ⟨y1, y2⟩ := y
    simp only at hxy hx2 hy2
    subst hxy
    rw [hx2] at hy2
    rw [hy2]
  · exact List.Nodup.filter _ (List.Nodup.of_map Prod.fst (List.nodup_enum_map_fst l))

/-- C5: for every input configuration (also a missing one) the computed
share list is non-empty and duplicate-free, an input share list that is
empty after trimming/filtering yields exactly the single default
`./shares`, and every missing field — at whatever nesting level it is
missing (the whole config, `folders`/`security` absent, or only the leaf
`temp`/`passwords.size`/`rsa.keySize`/`port` absent) — receives its default
(`./temp`, port 23979, password size 48, RSA key size 2048). -/
theorem claim5_config (cfg0 : Option InConfig) :
    (updateConfig cfg0).shares ≠ [] ∧
    (updateConfig cfg0).shares.Nodup ∧
    (processedShares (cfg0.getD (InConfig.mk none none none)) = [] →
      (updateConfig cfg0).shares = [defaultSharesLit]) ∧
    updateConfig none = ClientConfigModel.mk [defaultSharesLit] defaultTempLit 23979 48 2048 ∧
    ((cfg0.getD (InConfig.mk none none none)).folders.bind InFolders.temp = none →
      (updateConfig cfg0).temp = defaultTempLit) ∧
    (((cfg0.getD (InConfig.mk none none none)).security.bind
        InSecurity.passwords).bind InPasswords.size = none →
      (updateConfig cfg0).passwordSize = 48) ∧
    (((cfg0.getD (InConfig.mk none none none)).security.bind
        InSecurity.rsa).bind InRsa.keySize = none →
      (updateConfig cfg0).rsaKeySize = 2048) ∧
    ((cfg0.getD (InConfig.mk none none none)).port = none →
      (updateConfig cfg0).port = 23979) := by
  refine ⟨?_, ?_, ?_, rfl, ?_, ?_, ?_, ?_⟩
  · unfold updateConfig
    dsimp only
    split
    · simp
    · rename_i hne
      exact hne
  · unfold updateConfig
    dsimp only
    split
    · exact List.nodup_singleton defaultSharesLit
    · exact jsDedup_nodup _
  · intro h
    unfold updateConfig
    dsimp only
    rw [h]
    rw [if_pos (show jsDedup ([] : List (List Nat)) = [] from rfl)]
  · intro h
    unfold updateConfig
    dsimp only
    rcases hf : (cfg0.getD (InConfig.mk none none none)).folders with _ | f
    · rfl
    · rw [hf, Option.some_bind] at h
      dsimp only
      rw [h]
  · intro h
    unfold updateConfig
    dsimp only
    rcases hs : (cfg0.getD (InConfig.mk none none none)).security with _ | sec
    · rfl
    · rw [hs, Option.some_bind] at h
      dsimp only
      rcases hp : sec.passwords with _ | p
      · rfl
      · rw [hp, Option.some_bind] at h
        dsimp only
        rw [h]
  · intro h
    unfold updateConfig
    dsimp only
    rcases hs : (cfg0.getD (InConfig.mk none none none)).security with _ | sec
    · rfl
    · rw [hs, Option.some_bind] at h
      dsimp only
      rcases hr : sec.rsa with _ | r
      · rfl
      · rw [hr, Option.some_bind] at h
        dsimp only
        rw [h]
  · intro h
    unfold updateConfig
    dsimp only
    rw [h]

/-- C2 counterexample: rendering with the empty file name produces
`dboy://|file||0|<64 zero-hex>|/`, whose empty name field cannot match the
regex group `([^\\|]+)`, so `addByLink` fails with `Invalid link format!`
instead of round-tripping (and no default `file.dat` is applied). -/
theorem claim2_counterexample :
    parseLink (renderLink [] 0 (List.replicate 64 48)) = LinkParseResult.invalidFormat := by
  decide

/-- C2 witness: the canonical link for a 1024-byte `report.pdf` with the
all-zero hash round-trips to exactly its rendered fields. -/
theorem claim2_witness :
    parseLink (renderLink (strBytes "report.pdf") 1024 (List.replicate 64 48)) =
      LinkParseResult.ok (strBytes "report.pdf") 1024 (List.replicate 64 48) :=
  parseLink_renderLink (strBytes "report.pdf") 1024 (List.replicate 64 48)
    (by decide) (by decide) (by decide) (by decide)

/-- C5 witness: a configuration whose `folders` and `security` objects are
present but whose leaf fields (`temp`, `passwords`, `rsa`, `port`) are
missing, and whose share list holds one all-whitespace entry, receives every
default: the single `./shares` share, `./temp`, password size 48, key size
2048, and port 23979. -/
theorem claim5_witness :
    (updateConfig (some (InConfig.mk (some (InFolders.mk none (some [[32]])))
      (some (InSecurity.mk none none)) none))).shares = [defaultSharesLit] ∧
    (updateConfig (some (InConfig.mk (some (InFolders.mk none (some [[32]])))
      (some (InSecurity.mk none none)) none))).temp = defaultTempLit ∧
    (updateConfig (some (InConfig.mk (some (InFolders.mk none (some [[32]])))
      (some (InSecurity.mk none none)) none))).passwordSize = 48 ∧
    (updateConfig (some (InConfig.mk (some (InFolders.mk none (some [[32]])))
      (some (InSecurity.mk none none)) none))).rsaKeySize = 2048 ∧
    (updateConfig (some (InConfig.mk (some (InFolders.mk none (some [[32]])))
      (some (InSecurity.mk none none)) none))).port = 23979 := by
  have h := claim5_config (some (InConfig.mk (some (InFolders.mk none (some [[32]])))
    (some (InSecurity.mk none none)) none))
  exact ⟨h.2.2.1 rfl, h.2.2.2.2.1 rfl, h.2.2.2.2.2.1 rfl,
    h.2.2.2.2.2.2.1 rfl, h.2.2.2.2.2.2.2 rfl⟩
